import Mathlib

/-!
Verification of the `shrink` request-admission and middleware layer.

The definitions below are a shallow embedding of the Go sources:

* `internal/middleware/ratelimit.go` — per-client token-bucket limiter
  (`RateLimiter.Allow`).  Go's `float64` token arithmetic is embedded as
  exact rationals (`ℚ`), matching the spec's "tokens are real-valued"
  numeric semantics; `time.Time` values are embedded as rational
  timestamps in seconds, so `now.Sub(b.lastRefill).Seconds()` becomes
  `now - b.lastRefill`.
* `internal/encoding/base62.go` — `Encode` (base62 of an `int64`).
* `internal/middleware/requestid.go` — `RequestID` correlation tagger
  with its package-level atomically incremented `int64` counter.
* `internal/middleware/logging.go` — the `responseWriter` decorator and
  the `Logging` stage.
* `internal/middleware/recovery.go` — the `Recovery` fault barrier and
  the `Chain` composer.
* `internal/middleware/cors.go` — the `CORS` filter.

HTTP side effects are embedded as explicit event traces: a handler maps a
request to the list of response-writer calls it performs.  Each Allow call
in Go runs entirely under `rl.mu`, so a concurrent execution is some
sequential interleaving of whole calls; the state-passing functions below
model exactly those atomic steps.
-/

namespace Shrink

/-- Per-client token-bucket state, from `ratelimit.go`:
`tokens float64; lastRefill time.Time`. -/
structure Bucket where
  tokens : ℚ
  lastRefill : ℚ
deriving Repr, DecidableEq

/-- The limiter, from `ratelimit.go`: a map from client identity (IP
string) to bucket, plus the configured refill rate and burst capacity.
The `sync.Mutex` serialises whole `Allow` calls; the embedded `Allow`
below is the body of one such atomic call. -/
structure RateLimiter where
  buckets : String → Option Bucket
  rate : ℚ
  burst : ℤ

/-- `NewRateLimiter` from `ratelimit.go`: empty bucket map. -/
def NewRateLimiter (rate : ℚ) (burst : ℤ) : RateLimiter :=
  ⟨fun _ => none, rate, burst⟩

/-- `RateLimiter.Allow` from `ratelimit.go` lines 34-63, with the wall
clock `now` passed explicitly.  Returns the decision together with the
updated limiter state. -/
def RateLimiter.Allow (rl : RateLimiter) (ip : String) (now : ℚ) :
    Bool × RateLimiter :=
  match rl.buckets ip with
  | none =>
      (true,
       ⟨Function.update rl.buckets ip (some ⟨(rl.burst : ℚ) - 1, now⟩),
        rl.rate, rl.burst⟩)
  | some b =>
      let elapsed := now - b.lastRefill
      let t1 := b.tokens + elapsed * rl.rate
      let t2 := if t1 > (rl.burst : ℚ) then (rl.burst : ℚ) else t1
      if t2 < 1 then
        (false,
         ⟨Function.update rl.buckets ip (some ⟨t2, now⟩), rl.rate, rl.burst⟩)
      else
        (true,
         ⟨Function.update rl.buckets ip (some ⟨t2 - 1, now⟩), rl.rate,
          rl.burst⟩)

/-- The claim's description of `Allow`, written from the spec §4.1
wording: refill `elapsed * rate`, cap at `burst`, set `lastRefill` to
`now`; if the result is ≥ 1 subtract one and allow, else deny without
subtracting; a fresh identity gets a bucket at `burst - 1` and is
allowed. -/
def allowSpec (rl : RateLimiter) (ip : String) (now : ℚ) :
    Bool × RateLimiter :=
  match rl.buckets ip with
  | none =>
      (true,
       ⟨Function.update rl.buckets ip (some ⟨(rl.burst : ℚ) - 1, now⟩),
        rl.rate, rl.burst⟩)
  | some b =>
      let refilled := min ((rl.burst : ℚ)) (b.tokens + (now - b.lastRefill) * rl.rate)
      if 1 ≤ refilled then
        (true,
         ⟨Function.update rl.buckets ip (some ⟨refilled - 1, now⟩), rl.rate,
          rl.burst⟩)
      else
        (false,
         ⟨Function.update rl.buckets ip (some ⟨refilled, now⟩), rl.rate,
          rl.burst⟩)

/-- Run `n` consecutive `Allow` calls for `ip`, all at wall-clock time
`now`; returns the list of decisions in call order and the final state. -/
def allowRun (rl : RateLimiter) (ip : String) (now : ℚ) :
    ℕ → List Bool × RateLimiter
  | 0 => ([], rl)
  | n + 1 =>
      let r1 := rl.Allow ip now
      let rest := allowRun r1.2 ip now n
      (r1.1 :: rest.1, rest.2)

/-- Number of allowed calls among `n` consecutive calls at time `now`. -/
def allowCount (rl : RateLimiter) (ip : String) (now : ℚ) (n : ℕ) : ℕ :=
  ((allowRun rl ip now n).1.count true)

end Shrink

namespace Shrink

/-- One `Allow` call on an existing bucket whose `lastRefill` already
equals `now` (zero elapsed time) and whose tokens do not exceed the
burst: allowed iff at least one token is present. -/
theorem allow_zero_elapsed (f : String → Option Bucket) (R : ℚ) (B : ℤ)
    (ip : String) (now c : ℚ) (hb : f ip = some ⟨c, now⟩)
    (hle : c ≤ (B : ℚ)) :
    RateLimiter.Allow ⟨f, R, B⟩ ip now =
      if 1 ≤ c then
        (true, ⟨Function.update f ip (some ⟨c - 1, now⟩), R, B⟩)
      else
        (false, ⟨Function.update f ip (some ⟨c, now⟩), R, B⟩) := by
  simp only [RateLimiter.Allow, hb]
  have h0 : c + (now - now) * R = c := by ring
  rw [h0]
  rw [if_neg (not_lt.mpr hle)]
  rcases le_or_lt 1 c with h1 | h1
  · rw [if_neg (not_lt.mpr h1), if_pos h1]
  · rw [if_pos h1, if_neg (not_le.mpr h1)]

/-- Running `m` zero-elapsed calls against a bucket holding `c ≥ m`
tokens (with `c` within the burst) allows all of them and leaves
`c - m` tokens. -/
theorem allowRun_all_allowed (R : ℚ) (B : ℤ) (ip : String) (now : ℚ) :
    ∀ (m : ℕ) (c : ℚ) (f : String → Option Bucket),
      f ip = some ⟨c, now⟩ → (m : ℚ) ≤ c → c ≤ (B : ℚ) →
      allowRun ⟨f, R, B⟩ ip now m =
        (List.replicate m true,
         ⟨Function.update f ip (some ⟨c - m, now⟩), R, B⟩) := by
  intro m
  induction m with
  | zero =>
      intro c f hb _ _
      simp only [allowRun, List.replicate]
      rw [show (c - (0 : ℕ) : ℚ) = c by push_cast; ring]
      rw [← hb, Function.update_eq_self]
  | succ m ih =>
      intro c f hb hm hc
      have h1c : 1 ≤ c := le_trans (by push_cast; linarith [Nat.cast_nonneg (α := ℚ) m]) hm
      simp only [allowRun]
      rw [allow_zero_elapsed f R B ip now c hb hc, if_pos h1c]
      simp only
      rw [ih (c - 1) (Function.update f ip (some ⟨c - 1, now⟩))
        (Function.update_same ip _ f)
        (by push_cast at hm ⊢; linarith) (by linarith)]
      rw [Function.update_idem]
      have : c - 1 - (m : ℚ) = c - ((m : ℕ) + 1 : ℕ) := by push_cast; ring
      rw [this]
      rfl

/-- **C1.** `Allow` behaves exactly as the spec's §4.1 algorithm states:
on an existing bucket it adds `elapsed * rate` tokens, caps at the burst
capacity, stamps `lastRefill := now`, then allows (subtracting one token)
iff the refilled count is ≥ 1, denying without subtracting otherwise; a
first-ever identity gets a fresh bucket at `burst - 1` tokens and is
allowed. -/
theorem C1_allow_matches_spec (rl : RateLimiter) (ip : String) (now : ℚ) :
    rl.Allow ip now = allowSpec rl ip now := by
  unfold RateLimiter.Allow allowSpec
  cases h : rl.buckets ip with
  | none => rfl
  | some b =>
      simp only
      have hcap : (if b.tokens + (now - b.lastRefill) * rl.rate > (rl.burst : ℚ)
          then (rl.burst : ℚ) else b.tokens + (now - b.lastRefill) * rl.rate)
          = min ((rl.burst : ℚ)) (b.tokens + (now - b.lastRefill) * rl.rate) := by
        rcases le_or_lt (b.tokens + (now - b.lastRefill) * rl.rate) ((rl.burst : ℚ)) with hle | hgt
        · rw [if_neg (not_lt.mpr hle), min_eq_right hle]
        · rw [if_pos hgt, min_eq_left (le_of_lt hgt)]
      rw [hcap]
      rcases lt_or_le (min ((rl.burst : ℚ)) (b.tokens + (now - b.lastRefill) * rl.rate)) 1 with hlt | hge
      · rw [if_pos hlt, if_neg (not_le.mpr hlt)]
      · rw [if_neg (not_lt.mpr hge), if_pos hge]

/-- **C2.** Token conservation, spec §8.1: with rate `R > 0` and burst
`B ≥ 1`, starting from a fresh identity, `B` zero-elapsed `Allow` calls
all return `true`, the `(B+1)`-th returns `false`, and after waiting
exactly `1/R` seconds exactly one further call returns `true` (the next
zero-elapsed call after it returns `false`). -/
theorem C2_token_conservation (R : ℚ) (B : ℕ) (ip : String) (t0 : ℚ)
    (rl : RateLimiter) (hR : 0 < R) (hB : 1 ≤ B)
    (hfresh : rl.buckets ip = none) (hrate : rl.rate = R)
    (hburst : rl.burst = (B : ℤ)) :
    (allowRun rl ip t0 B).1 = List.replicate B true ∧
    ((allowRun rl ip t0 B).2.Allow ip t0).1 = false ∧
    ((((allowRun rl ip t0 B).2.Allow ip t0).2).Allow ip (t0 + 1 / R)).1
      = true ∧
    (((((allowRun rl ip t0 B).2.Allow ip t0).2).Allow ip
        (t0 + 1 / R)).2.Allow ip (t0 + 1 / R)).1 = false := by
  obtain ⟨f, hf⟩ : ∃ f, rl = ⟨f, R, (B : ℤ)⟩ := by
    refine ⟨rl.buckets, ?_⟩
    cases rl
    simp_all
  subst hf
  simp only at hfresh
  obtain ⟨B', rfl⟩ : ∃ B', B = B' + 1 :=
    ⟨B - 1, (Nat.succ_pred_eq_of_pos hB).symm⟩
  have hB1 : (1 : ℚ) ≤ (((B' + 1 : ℕ) : ℤ) : ℚ) := by push_cast; linarith
  -- the first call hits the fresh branch
  have hfirst : RateLimiter.Allow ⟨f, R, ((B' + 1 : ℕ) : ℤ)⟩ ip t0 =
      (true,
       ⟨Function.update f ip (some ⟨(((B' + 1 : ℕ) : ℤ) : ℚ) - 1, t0⟩), R,
        ((B' + 1 : ℕ) : ℤ)⟩) := by
    simp only [RateLimiter.Allow, hfresh]
  have hrun : allowRun ⟨f, R, ((B' + 1 : ℕ) : ℤ)⟩ ip t0 (B' + 1) =
      (List.replicate (B' + 1) true,
       ⟨Function.update f ip (some ⟨0, t0⟩), R, ((B' + 1 : ℕ) : ℤ)⟩) := by
    simp only [allowRun, hfirst]
    rw [allowRun_all_allowed R ((B' + 1 : ℕ) : ℤ) ip t0 B'
      ((((B' + 1 : ℕ) : ℤ) : ℚ) - 1)
      (Function.update f ip (some ⟨(((B' + 1 : ℕ) : ℤ) : ℚ) - 1, t0⟩))
      (Function.update_same ip _ f)
      (by push_cast; linarith)
      (by push_cast; linarith)]
    rw [Function.update_idem]
    have hz : (((B' + 1 : ℕ) : ℤ) : ℚ) - 1 - (B' : ℚ) = 0 := by
      push_cast
      ring
    rw [hz]
    rfl
  have hzero_le : (0 : ℚ) ≤ ((((B' + 1 : ℕ) : ℤ)) : ℚ) := by push_cast; linarith
  have hdeny : RateLimiter.Allow
      ⟨Function.update f ip (some ⟨0, t0⟩), R, ((B' + 1 : ℕ) : ℤ)⟩ ip t0 =
      (false,
       ⟨Function.update f ip (some ⟨0, t0⟩), R, ((B' + 1 : ℕ) : ℤ)⟩) := by
    rw [allow_zero_elapsed _ R ((B' + 1 : ℕ) : ℤ) ip t0 0
      (Function.update_same ip _ f) hzero_le]
    rw [if_neg (by norm_num)]
    rw [Function.update_idem]
  have hrefill : RateLimiter.Allow
      ⟨Function.update f ip (some ⟨0, t0⟩), R, ((B' + 1 : ℕ) : ℤ)⟩ ip
        (t0 + 1 / R) =
      (true,
       ⟨Function.update f ip (some ⟨0, t0 + 1 / R⟩), R,
        ((B' + 1 : ℕ) : ℤ)⟩) := by
    simp only [RateLimiter.Allow, Function.update_same]
    have h1 : (0 : ℚ) + (t0 + 1 / R - t0) * R = 1 := by
      field_simp
      ring
    rw [h1]
    rw [if_neg (not_lt.mpr hB1), if_neg (by norm_num)]
    rw [Function.update_idem]
    norm_num
  have hdeny2 : RateLimiter.Allow
      ⟨Function.update f ip (some ⟨0, t0 + 1 / R⟩), R, ((B' + 1 : ℕ) : ℤ)⟩ ip
        (t0 + 1 / R) =
      (false,
       ⟨Function.update f ip (some ⟨0, t0 + 1 / R⟩), R,
        ((B' + 1 : ℕ) : ℤ)⟩) := by
    rw [allow_zero_elapsed _ R ((B' + 1 : ℕ) : ℤ) ip (t0 + 1 / R) 0
      (Function.update_same ip _ f) hzero_le]
    rw [if_neg (by norm_num)]
    rw [Function.update_idem]
  refine ⟨by rw [hrun], ?_, ?_, ?_⟩
  · rw [hrun, hdeny]
  · rw [hrun, hdeny, hrefill]
  · rw [hrun, hdeny, hrefill, hdeny2]

/-- Witness for C2 at the spec §8.7 scenario shape: rate 2, burst 3. -/
theorem C2_token_conservation_witness :
    (allowRun (NewRateLimiter 2 3) "a" 0 3).1 = List.replicate 3 true ∧
    ((allowRun (NewRateLimiter 2 3) "a" 0 3).2.Allow "a" 0).1 = false ∧
    ((((allowRun (NewRateLimiter 2 3) "a" 0 3).2.Allow "a" 0).2).Allow "a"
        (0 + 1 / 2)).1 = true ∧
    (((((allowRun (NewRateLimiter 2 3) "a" 0 3).2.Allow "a" 0).2).Allow "a"
        (0 + 1 / 2)).2.Allow "a" (0 + 1 / 2)).1 = false :=
  C2_token_conservation 2 3 "a" 0 (NewRateLimiter 2 3) (by norm_num)
    (by norm_num) rfl rfl rfl

/-- Zero-elapsed calls against a bucket holding the integer token count
`T` (within the burst) allow exactly `min N T` of `N` calls. -/
theorem allowCount_min (R : ℚ) (B : ℤ) (ip : String) (t0 : ℚ) :
    ∀ (N T : ℕ) (f : String → Option Bucket),
      f ip = some ⟨(T : ℚ), t0⟩ → (T : ℚ) ≤ (B : ℚ) →
      allowCount ⟨f, R, B⟩ ip t0 N = min N T := by
  intro N
  induction N with
  | zero =>
      intro T f _ _
      simp [allowCount, allowRun]
  | succ N ih =>
      intro T f hb hT
      cases T with
      | zero =>
          have hb0 : f ip = some ⟨0, t0⟩ := by simpa using hb
          simp only [allowCount, allowRun]
          rw [allow_zero_elapsed f R B ip t0 0 hb0 (by simpa using hT)]
          rw [if_neg (by norm_num)]
          simp only [List.count_cons]
          have hrest := ih 0 (Function.update f ip (some ⟨0, t0⟩))
            (by simp) (by simpa using hT)
          simp only [allowCount] at hrest
          simp [hrest]
      | succ T' =>
          have h1T : (1 : ℚ) ≤ ((T' + 1 : ℕ) : ℚ) := by push_cast; linarith
          simp only [allowCount, allowRun]
          rw [allow_zero_elapsed f R B ip t0 ((T' + 1 : ℕ) : ℚ) hb hT]
          rw [if_pos h1T]
          simp only [List.count_cons]
          have hcast : ((T' + 1 : ℕ) : ℚ) - 1 = (T' : ℚ) := by push_cast; ring
          have hrest := ih T' (Function.update f ip (some ⟨((T' + 1 : ℕ) : ℚ) - 1, t0⟩))
            (by rw [Function.update_same, hcast]) (by push_cast at hT ⊢; linarith)
          simp only [allowCount] at hrest
          simp only [hrest]
          simp [Nat.succ_min_succ]

/-- **C3.** No double-spend, spec §8.3: with an integer token count `T`
in the bucket and no time elapsing, `N` `Allow` calls yield exactly
`min N T` approvals.  Every call in `ratelimit.go` holds `rl.mu` for the
whole check-refill-decrement sequence, so any concurrent firing of the
`N` calls is some sequential interleaving of these atomic steps, which
is exactly the `allowRun`/`allowCount` iteration. -/
theorem C3_no_double_spend (rl : RateLimiter) (ip : String) (t0 : ℚ)
    (N T : ℕ) (hb : rl.buckets ip = some ⟨(T : ℚ), t0⟩)
    (hT : (T : ℚ) ≤ ((rl.burst : ℤ) : ℚ)) :
    allowCount rl ip t0 N = min N T := by
  obtain ⟨f, R, B⟩ := rl
  exact allowCount_min R B ip t0 N T f hb hT

/-- Witness for C3: a bucket holding 2 tokens, 4 calls, 2 approvals. -/
theorem C3_no_double_spend_witness :
    allowCount ⟨Function.update (fun _ => none) "a" (some ⟨(2 : ℚ), 0⟩), 1, 5⟩
      "a" 0 4 = min 4 2 :=
  C3_no_double_spend
    ⟨Function.update (fun _ => none) "a" (some ⟨(2 : ℚ), 0⟩), 1, 5⟩ "a" 0 4 2
    (by simp) (by norm_num)

/-- **C8.** Isolation, spec §8.2: an `Allow` call for identity `a`
leaves identity `b`'s bucket untouched, and a fresh identity `b` is
still allowed after any call for `a` (in particular after a denial). -/
theorem C8_isolation (rl : RateLimiter) (a b : String) (now : ℚ)
    (hab : a ≠ b) :
    ((rl.Allow a now).2).buckets b = rl.buckets b ∧
    (rl.buckets b = none →
      ∀ now2 : ℚ, (((rl.Allow a now).2).Allow b now2).1 = true) := by
  have hupdate : ∀ v : Option Bucket,
      (Function.update rl.buckets a v) b = rl.buckets b := fun v =>
    Function.update_noteq (Ne.symm hab) v rl.buckets
  have hframe : ((rl.Allow a now).2).buckets b = rl.buckets b := by
    unfold RateLimiter.Allow
    cases h : rl.buckets a with
    | none => exact hupdate _
    | some bk =>
        simp only
        split <;> split <;> exact hupdate _
  refine ⟨hframe, ?_⟩
  intro hnone now2
  have h2 : ((rl.Allow a now).2).buckets b = none := hframe.trans hnone
  generalize hX : (rl.Allow a now).2 = X at h2
  simp only [RateLimiter.Allow, h2]

/-- Witness for C8: after a denied call for "a" on a limiter with rate 1
and burst 1 whose "a"-bucket is empty, a fresh identity "b" is allowed. -/
theorem C8_isolation_witness :
    (((⟨Function.update (fun _ => none) "a" (some ⟨0, 0⟩), 1, 1⟩ :
        RateLimiter).Allow "a" 0).2).buckets "b" =
      (⟨Function.update (fun _ => none) "a" (some ⟨0, 0⟩), 1, 1⟩ :
        RateLimiter).buckets "b" ∧
    ((((⟨Function.update (fun _ => none) "a" (some ⟨0, 0⟩), 1, 1⟩ :
        RateLimiter).Allow "a" 0).2).Allow "b" 0).1 = true := by
  have h := C8_isolation
    ⟨Function.update (fun _ => none) "a" (some ⟨0, 0⟩), 1, 1⟩ "a" "b" 0
    (by decide)
  exact ⟨h.1, h.2 (by simp [Function.update_noteq]) 0⟩

/-! ## Base62 encoding (`internal/encoding/base62.go`) -/

/-- The base62 alphabet constant from `base62.go`. -/
def alphabet : String :=
  "abcdefghijklmnopqrstuvwxyzABCDEFGHIJKLMNOPQRSTUVWXYZ0123456789"

/-- `alphabet[d]` — byte indexing into the (all-ASCII) alphabet. -/
def digitChar (d : ℕ) : Char := alphabet.toList.getD d 'a'

/-- The digit-emitting loop of `Encode`: least-significant digit first,
one `id % 62` digit per iteration with `id /= 62`. -/
def encodeCore (n : ℕ) : List Char :=
  if h : n = 0 then [] else digitChar (n % 62) :: encodeCore (n / 62)
decreasing_by exact Nat.div_lt_self (Nat.pos_of_ne_zero h) (by norm_num)

/-- `Encode` from `base62.go`: `""` for negative input, `"a"` for 0,
otherwise the base62 digits most-significant first (the Go code emits
them least-significant first into a builder and then reverses). -/
def Encode (id : ℤ) : String :=
  if id < 0 then ""
  else if id = 0 then "a"
  else ⟨(encodeCore id.toNat).reverse⟩

/-- `strings.IndexRune(alphabet, c)` as a partial lookup: `some` index
when the character is a base62 digit. -/
def idxOf (c : Char) : Option ℕ :=
  if c ∈ alphabet.toList then some (alphabet.toList.indexOf c) else none

/-- Verification helper (the mathematical inverse of the digit loop,
mirroring the accumulator loop of `Decode` in `base62.go`): fold
`acc * 62 + digit` over the characters, failing on a non-digit. -/
def decodeAux : ℕ → List Char → Option ℕ
  | acc, [] => some acc
  | acc, c :: rest =>
      match idxOf c with
      | none => none
      | some i => decodeAux (acc * 62 + i) rest

theorem idx_digit : ∀ d < 62, idxOf (digitChar d) = some d := by decide

theorem decodeAux_append (a : ℕ) (xs ys : List Char) :
    decodeAux a (xs ++ ys) =
      (decodeAux a xs).bind fun a2 => decodeAux a2 ys := by
  induction xs generalizing a with
  | nil => simp [decodeAux]
  | cons c xs ih =>
      simp only [List.cons_append, decodeAux]
      cases hi : idxOf c with
      | none => simp
      | some i => simp [ih]

/-- Round trip for the digit loop: decoding the emitted digits (read
most-significant first) recovers the number. -/
theorem decodeAux_encodeCore :
    ∀ n : ℕ, 0 < n → ∀ a : ℕ,
      decodeAux a (encodeCore n).reverse =
        some (a * 62 ^ (encodeCore n).length + n) := by
  intro n
  induction n using Nat.strong_induction_on with
  | _ n ih =>
      intro hn a
      rw [encodeCore, dif_neg hn.ne']
      rcases Nat.eq_zero_or_pos (n / 62) with h0 | hpos
      · have hlt : n < 62 := (Nat.div_eq_zero_iff (by norm_num)).mp h0
        rw [h0]
        rw [encodeCore, dif_pos rfl]
        simp only [List.reverse_cons, List.reverse_nil, List.nil_append,
          List.length_cons, List.length_nil]
        rw [show decodeAux a [digitChar (n % 62)] =
            (idxOf (digitChar (n % 62))).bind
              (fun i => some (a * 62 + i)) from by
          cases hi : idxOf (digitChar (n % 62)) <;> simp [decodeAux, hi]]
        rw [idx_digit (n % 62) (Nat.mod_lt n (by norm_num))]
        simp [Nat.mod_eq_of_lt hlt]
      · have hrec := ih (n / 62) (Nat.div_lt_self hn (by norm_num)) hpos a
        simp only [List.reverse_cons]
        rw [decodeAux_append, hrec]
        simp only [Option.some_bind]
        rw [show decodeAux (a * 62 ^ (encodeCore (n / 62)).length + n / 62)
              [digitChar (n % 62)] =
            (idxOf (digitChar (n % 62))).bind
              (fun i =>
                some ((a * 62 ^ (encodeCore (n / 62)).length + n / 62) * 62
                  + i)) from by
          cases hi : idxOf (digitChar (n % 62)) <;> simp [decodeAux, hi]]
        rw [idx_digit (n % 62) (Nat.mod_lt n (by norm_num))]
        simp only [Option.some_bind, Option.some.injEq, List.length_cons]
        rw [Nat.add_mul, Nat.mul_assoc, ← Nat.pow_succ, Nat.add_assoc]
        rw [show n / 62 * 62 + n % 62 = n from by omega]

/-- `Encode` is injective on positive inputs (fresh correlation ids are
collision-free). -/
theorem Encode_injective (i j : ℤ) (hi : 0 < i) (hj : 0 < j)
    (h : Encode i = Encode j) : i = j := by
  have hdat := congrArg String.data h
  rw [Encode, Encode, if_neg (not_lt.mpr hi.le), if_neg (not_lt.mpr hj.le),
    if_neg hi.ne', if_neg hj.ne'] at hdat
  simp only [String.data] at hdat
  have hti : 0 < i.toNat := by omega
  have htj : 0 < j.toNat := by omega
  have h1 := decodeAux_encodeCore i.toNat hti 0
  have h2 := decodeAux_encodeCore j.toNat htj 0
  rw [hdat] at h1
  rw [h2] at h1
  simp only [Option.some.injEq, Nat.zero_mul, Nat.zero_add] at h1
  omega

/-! ## Correlation tagger (`RequestID` middleware) -/

/-- HTTP response-writer calls, as explicit events: header mutation,
status write, body write. -/
inductive Event where
  | setHeader (name value : String)
  | writeHeader (code : ℕ)
  | write (data : String)
deriving Repr, DecidableEq

/-- The request data the middleware stages inspect: method, URL path,
the `Origin` and `X-Request-ID` headers (empty string when absent, as
`Header.Get` returns), and the context value stored under the
`requestID` key (empty when absent, as `GetRequestID` returns). -/
structure Request where
  method : String
  path : String
  origin : String
  inboundID : String
  ctxID : String
deriving Repr, DecidableEq

/-- `context.WithValue(r.Context(), requestIDKey, id)`. -/
def setCtxID (r : Request) (id : String) : Request :=
  ⟨r.method, r.path, r.origin, r.inboundID, id⟩

/-- Two's-complement wraparound of Go's `int64` counter. -/
def int64wrap (x : ℤ) : ℤ := (x + 2 ^ 63) % 2 ^ 64 - 2 ^ 63

/-- The `RequestID` middleware: reuse a non-empty inbound
`X-Request-ID` verbatim, otherwise `atomic.AddInt64(&counter, 1)` and
base62-encode the result; set the response header, store the id in the
context, run `next`.  The package-level counter is passed as explicit
state; the atomic add makes read-increment-write one step. -/
def RequestID (next : Request → List Event) (counter : ℤ) (r : Request) :
    List Event × ℤ :=
  if r.inboundID = "" then
    (Event.setHeader "X-Request-ID" (Encode (int64wrap (counter + 1))) ::
      next (setCtxID r (Encode (int64wrap (counter + 1)))),
     int64wrap (counter + 1))
  else
    (Event.setHeader "X-Request-ID" r.inboundID ::
      next (setCtxID r r.inboundID), counter)

/-- **C7.** The identity tagger reuses a non-empty inbound
`X-Request-ID` verbatim and otherwise synthesizes
`Encode(counter + 1)` from the atomically incremented counter; either
way it emits exactly one `X-Request-ID` response-header set (its own
output is that single header event followed by the downstream trace)
and hands the chosen id to the downstream stage through the request
context.  Distinct counter increments (below the `int64` bound, i.e.
within any real process lifetime) yield distinct synthesized ids. -/
theorem C7_request_id_tagger (next : Request → List Event) (c : ℤ)
    (r : Request) :
    (r.inboundID ≠ "" →
      RequestID next c r =
        (Event.setHeader "X-Request-ID" r.inboundID ::
          next (setCtxID r r.inboundID), c)) ∧
    (r.inboundID = "" →
      RequestID next c r =
        (Event.setHeader "X-Request-ID" (Encode (int64wrap (c + 1))) ::
          next (setCtxID r (Encode (int64wrap (c + 1)))),
         int64wrap (c + 1))) ∧
    (∀ i j : ℤ, 1 ≤ i → i < 2 ^ 63 → 1 ≤ j → j < 2 ^ 63 → i ≠ j →
      Encode (int64wrap i) ≠ Encode (int64wrap j)) := by
  refine ⟨?_, ?_, ?_⟩
  · intro hne
    rw [RequestID, if_neg hne]
  · intro heq
    rw [RequestID, if_pos heq]
  · intro i j hi1 hi2 hj1 hj2 hij habs
    have hwi : int64wrap i = i := by unfold int64wrap; omega
    have hwj : int64wrap j = j := by unfold int64wrap; omega
    rw [hwi, hwj] at habs
    exact hij (Encode_injective i j (by omega) (by omega) habs)

/-- Witness for C7: a request with no inbound id gets the synthesized
id `Encode 1`, and the first two synthesized ids differ. -/
theorem C7_request_id_tagger_witness :
    RequestID (fun _ => []) 0 ⟨"GET", "/", "", "", ""⟩ =
      ([Event.setHeader "X-Request-ID" (Encode (int64wrap (0 + 1)))],
       int64wrap (0 + 1)) ∧
    Encode (int64wrap 1) ≠ Encode (int64wrap 2) := by
  have h := C7_request_id_tagger (fun _ => []) 0 ⟨"GET", "/", "", "", ""⟩
  exact ⟨h.2.1 rfl,
    h.2.2 1 2 (by norm_num) (by norm_num) (by norm_num) (by norm_num)
      (by norm_num)⟩

/-! ## Chain composer (`recovery.go`, `Chain`) -/

/-- The `Chain` loop from `recovery.go` lines 34-41:
`for i := len(middlewares) - 1; i >= 0; i-- { final = middlewares[i](final) }`.
`chainLoop ms k final` runs the iterations for indices `k-1, k-2, …, 0`;
handlers (`http.Handler`) are an abstract type `H` and a middleware is a
handler transformer. -/
def chainLoop {H : Type} (ms : List (H → H)) : ℕ → H → H
  | 0, final => final
  | k + 1, final => chainLoop ms k (ms.getD k id final)

/-- `Chain` from `recovery.go`: fold the middlewares around the final
handler from the last listed inward. -/
def Chain {H : Type} (ms : List (H → H)) : H → H :=
  fun final => chainLoop ms ms.length final

/-- The spec §4.6 nesting `m1(m2(…mN(h)…))`, written from the claim's
words. -/
def nestCompose {H : Type} : List (H → H) → H → H
  | [], h => h
  | m :: ms, h => m (nestCompose ms h)

theorem nestCompose_append {H : Type} (xs ys : List (H → H)) (h : H) :
    nestCompose (xs ++ ys) h = nestCompose xs (nestCompose ys h) := by
  induction xs with
  | nil => rfl
  | cons m xs ih => simp [nestCompose, ih]

theorem chainLoop_eq_nest {H : Type} (ms : List (H → H)) :
    ∀ k, k ≤ ms.length → ∀ h : H,
      chainLoop ms k h = nestCompose (ms.take k) h := by
  intro k
  induction k with
  | zero => intro _ h; rfl
  | succ k ih =>
      intro hk h
      have hklt : k < ms.length := hk
      rw [chainLoop, ih (le_of_lt hklt)]
      rw [List.take_succ]
      rw [nestCompose_append]
      have hget : ms[k]?.toList = [ms.getD k id] := by
        rw [List.getElem?_eq_getElem hklt]
        rw [List.getD_eq_getElem ms id hklt]
        rfl
      rw [hget]
      rfl

/-- **C9.** `Chain(m1, …, mN)(h) = m1(m2(…mN(h)…))`: the first listed
middleware ends up outermost and composition adds nothing else — the
composed handler is exactly the nested application, for every
middleware list and terminal handler. -/
theorem C9_chain_is_nested_composition {H : Type} (ms : List (H → H))
    (h : H) : Chain ms h = nestCompose ms h := by
  rw [Chain, chainLoop_eq_nest ms ms.length le_rfl, List.take_length]

/-! ## Fault barrier (`recovery.go`, `Recovery`) -/

/-- The result of running a handler: the response-writer events it
performed before returning or panicking, and the panic value (Go
`recover()` result rendered as a message string) if it panicked. -/
structure Outcome where
  events : List Event
  panicked : Option String
deriving Repr, DecidableEq

/-- The uniform error body `{"error": msg, "code": code}` used by the
handlers and middleware (`writeError`, recovery, rate limiting). -/
def jsonError (msg : String) (code : ℕ) : String :=
  "\x7b\"error\":\"" ++ msg ++ "\",\"code\":" ++ toString code ++ "\x7d"

/-- What `Recovery` logs on a recovered panic:
`log.Printf("[%s] PANIC: %v\n%s", requestID, err, debug.Stack())`. -/
structure PanicLog where
  rid : String
  message : String
  stack : String
deriving Repr, DecidableEq

/-- `Recovery` from `recovery.go` lines 10-24: run `next`; if it
panicked, log the request id, panic value and stack, then write the
Content-Type header, a 500 status and the JSON error body after
whatever `next` already wrote.  The stack trace bytes are an
environment input. -/
def Recovery (next : Request → Outcome) (stack : String) (r : Request) :
    Outcome × List PanicLog :=
  match (next r).panicked with
  | none => (next r, [])
  | some msg =>
      (⟨(next r).events ++
          [Event.setHeader "Content-Type" "application/json",
           Event.writeHeader 500,
           Event.write (jsonError "internal server error" 500)],
        none⟩,
       [⟨r.ctxID, msg, stack⟩])

/-- **C5.** The fault barrier: the wrapped handler never lets a panic
propagate; a panicking request is answered with status 500 and the JSON
body `{"error": "internal server error", "code": 500}` appended to
whatever was already written, logged once with the request's
correlation id and the stack trace; a non-panicking request passes
through unchanged with nothing logged. -/
theorem C5_recovery_fault_barrier (next : Request → Outcome)
    (stack : String) (r : Request) :
    ((Recovery next stack r).1).panicked = none ∧
    ((next r).panicked = none → Recovery next stack r = (next r, [])) ∧
    (∀ msg, (next r).panicked = some msg →
      Recovery next stack r =
        (⟨(next r).events ++
            [Event.setHeader "Content-Type" "application/json",
             Event.writeHeader 500,
             Event.write (jsonError "internal server error" 500)],
          none⟩,
         [⟨r.ctxID, msg, stack⟩])) := by
  refine ⟨?_, ?_, ?_⟩
  · rw [Recovery]
    cases h : (next r).panicked with
    | none => simpa using h
    | some msg => rfl
  · intro h
    rw [Recovery]
    split
    · rfl
    · rename_i msg hmsg
      rw [h] at hmsg
      exact absurd hmsg (by simp)
  · intro msg h
    rw [Recovery]
    split
    · rename_i hnone
      rw [h] at hnone
      exact absurd hnone (by simp)
    · rename_i msg2 hmsg
      rw [h] at hmsg
      obtain rfl : msg = msg2 := by simpa using hmsg
      rfl

/-- Witness for C5: a clean handler passes through; a panicking handler
yields the 500 JSON response and one log with the correlation id. -/
theorem C5_recovery_fault_barrier_witness :
    Recovery (fun _ => ⟨[Event.writeHeader 200], none⟩) "st"
        ⟨"GET", "/", "", "", "id1"⟩ =
      (⟨[Event.writeHeader 200], none⟩, []) ∧
    Recovery (fun _ => ⟨[], some "boom"⟩) "st"
        ⟨"GET", "/", "", "", "id1"⟩ =
      (⟨[Event.setHeader "Content-Type" "application/json",
         Event.writeHeader 500,
         Event.write (jsonError "internal server error" 500)], none⟩,
       [⟨"id1", "boom", "st"⟩]) :=
  ⟨(C5_recovery_fault_barrier (fun _ => ⟨[Event.writeHeader 200], none⟩)
      "st" ⟨"GET", "/", "", "", "id1"⟩).2.1 rfl,
   (C5_recovery_fault_barrier (fun _ => ⟨[], some "boom"⟩)
      "st" ⟨"GET", "/", "", "", "id1"⟩).2.2 "boom" rfl⟩

/-! ## CORS filter (`cors.go`) -/

/-- `CORSConfig` from `cors.go`. -/
structure CORSConfig where
  allowedOrigins : List String
  allowedMethods : List String
  allowedHeaders : List String
  maxAge : ℤ
deriving Repr, DecidableEq

/-- `CORSMaxAge` constant from `cors.go`. -/
def CORSMaxAge : ℤ := 86400

/-- `DefaultCORSConfig` from `cors.go`. -/
def DefaultCORSConfig : CORSConfig :=
  ⟨["*"], ["GET", "POST", "OPTIONS"], ["Content-Type", "X-Request-ID"],
   CORSMaxAge⟩

/-- The allow-list loop of `CORS`: `o == "*" || o == origin` for some
entry (wildcard matches any origin). -/
def originAllowedLoop (origins : List String) (origin : String) : Bool :=
  origins.any fun o => o == "*" || o == origin

/-- The four cross-origin response headers `CORS` attaches for an
allowed origin: the origin echoed back, the joined methods and headers,
and the max-age. -/
def corsHeaders (config : CORSConfig) (origin : String) : List Event :=
  [Event.setHeader "Access-Control-Allow-Origin" origin,
   Event.setHeader "Access-Control-Allow-Methods"
     (String.intercalate ", " config.allowedMethods),
   Event.setHeader "Access-Control-Allow-Headers"
     (String.intercalate ", " config.allowedHeaders),
   Event.setHeader "Access-Control-Max-Age" (toString config.maxAge)]

/-- `CORS` from `cors.go` lines 31-63: no `Origin` header → pass
through untouched; otherwise attach the headers when the origin is
allowed, and for `OPTIONS` short-circuit with a 204 status (no body,
`next` never invoked); non-OPTIONS requests continue downstream. -/
def CORS (config : CORSConfig) (next : Request → List Event)
    (r : Request) : List Event :=
  if r.origin = "" then next r
  else
    let hdrs :=
      if originAllowedLoop config.allowedOrigins r.origin then
        corsHeaders config r.origin
      else []
    if r.method = "OPTIONS" then hdrs ++ [Event.writeHeader 204]
    else hdrs ++ next r

/-- The body writes occurring in a trace (used to state "empty body"). -/
def bodyWrites (t : List Event) : List Event :=
  t.filter fun e =>
    match e with
    | Event.write _ => true
    | _ => false

/-- **C6.** CORS preflight short-circuit: an `OPTIONS` request with an
allowed `Origin` yields exactly the four cross-origin headers and a 204
status with no body writes, whatever the downstream stage is (so the
downstream stage is never invoked); a request without an `Origin`
header is passed downstream with nothing added. -/
theorem C6_cors_preflight (config : CORSConfig)
    (next : Request → List Event) (r : Request) :
    (r.method = "OPTIONS" → r.origin ≠ "" →
      originAllowedLoop config.allowedOrigins r.origin = true →
      (∀ next2 : Request → List Event,
        CORS config next2 r =
          corsHeaders config r.origin ++ [Event.writeHeader 204]) ∧
      bodyWrites (corsHeaders config r.origin ++ [Event.writeHeader 204])
        = []) ∧
    (r.origin = "" → CORS config next r = next r) := by
  constructor
  · intro hm ho hallow
    constructor
    · intro next2
      rw [CORS, if_neg ho]
      simp only [hallow, if_true, hm, if_pos]
    · simp [bodyWrites, corsHeaders]
  · intro ho
    rw [CORS, if_pos ho]

/-- Witness for C6 with the repository's default config (wildcard): a
preflight from any origin short-circuits; an origin-less request passes
through. -/
theorem C6_cors_preflight_witness :
    (∀ next2 : Request → List Event,
      CORS DefaultCORSConfig next2 ⟨"OPTIONS", "/", "http://x", "", ""⟩ =
        corsHeaders DefaultCORSConfig "http://x" ++
          [Event.writeHeader 204]) ∧
    CORS DefaultCORSConfig (fun _ => [Event.write "terminal"])
        ⟨"GET", "/", "", "", ""⟩ =
      [Event.write "terminal"] :=
  ⟨((C6_cors_preflight DefaultCORSConfig (fun _ => [Event.write "terminal"])
        ⟨"OPTIONS", "/", "http://x", "", ""⟩).1 rfl (by decide) rfl).1,
   (C6_cors_preflight DefaultCORSConfig (fun _ => [Event.write "terminal"])
        ⟨"GET", "/", "", "", ""⟩).2 rfl⟩

/-- **C10.** A preflight from a disallowed origin (no wildcard in the
allow-list, origin not listed) still short-circuits with a bare 204 and
empty body — the trace is exactly `[writeHeader 204]` for every
downstream stage, so no `Access-Control-*` header is attached and the
downstream stage is never invoked. -/
theorem C10_cors_disallowed_preflight (config : CORSConfig) (r : Request)
    (hm : r.method = "OPTIONS") (ho : r.origin ≠ "")
    (hw : "*" ∉ config.allowedOrigins)
    (hno : r.origin ∉ config.allowedOrigins) :
    ∀ next : Request → List Event,
      CORS config next r = [Event.writeHeader 204] := by
  have hfalse : originAllowedLoop config.allowedOrigins r.origin = false := by
    rw [originAllowedLoop, List.any_eq_false]
    intro o hoin
    simp only [Bool.or_eq_true, beq_iff_eq, not_or]
    exact ⟨fun h => hw (h ▸ hoin), fun h => hno (h ▸ hoin)⟩
  intro next
  rw [CORS, if_neg ho]
  simp only [hfalse, if_false, hm, if_pos]
  rfl

/-- Witness for C10: origin `http://b` against an allow-list holding
only `http://a`. -/
theorem C10_cors_disallowed_preflight_witness :
    CORS ⟨["http://a"], ["GET"], [], 60⟩ (fun _ => [Event.write "terminal"])
        ⟨"OPTIONS", "/", "http://b", "", ""⟩ =
      [Event.writeHeader 204] :=
  C10_cors_disallowed_preflight ⟨["http://a"], ["GET"], [], 60⟩
    ⟨"OPTIONS", "/", "http://b", "", ""⟩ rfl (by decide) (by decide)
    (by decide) (fun _ => [Event.write "terminal"])

/-! ## Observability wrapper (`logging.go`) -/

/-- The `responseWriter` decorator state from `logging.go`: recorded
status and cumulative byte count.  `Logging` seeds it with
`http.StatusOK` (200) and size 0. -/
structure responseWriter where
  status : ℕ
  size : ℕ
deriving Repr, DecidableEq

/-- `(*responseWriter).WriteHeader`: record the code (unconditionally
overwriting any earlier one) and forward the call. -/
def rwWriteHeader (rw : responseWriter) (code : ℕ) :
    responseWriter × Event :=
  (⟨code, rw.size⟩, Event.writeHeader code)

/-- `(*responseWriter).Write`: forward the bytes to the underlying
writer, add the count it reports to `size` (the underlying
`http.ResponseWriter` accepts the whole slice when no write error
occurs), and return the count. -/
def rwWrite (rw : responseWriter) (b : String) :
    responseWriter × Event × ℕ :=
  (⟨rw.status, rw.size + b.length⟩, Event.write b, b.length)

/-- Feed one response-writer call through the decorator.  Header-map
mutations are served by the promoted embedded `http.ResponseWriter`,
untouched by the decorator. -/
def rwProcess (rw : responseWriter) (e : Event) : responseWriter × Event :=
  match e with
  | Event.writeHeader code => rwWriteHeader rw code
  | Event.write b => ((rwWrite rw b).1, (rwWrite rw b).2.1)
  | e => (rw, e)

/-- Feed a whole trace through the decorator, collecting the forwarded
trace and the final recorded state. -/
def rwRun (rw : responseWriter) : List Event → responseWriter × List Event
  | [] => (rw, [])
  | e :: t =>
      let p := rwProcess rw e
      let q := rwRun p.1 t
      (q.1, p.2 :: q.2)

/-- The structured log line from `logging.go`:
`"[%s] %s %s %d %s %d bytes"` — request id, method, path, status,
duration, bytes. -/
structure LogLine where
  rid : String
  method : String
  path : String
  status : ℕ
  duration : ℚ
  bytes : ℕ
deriving Repr, DecidableEq

/-- The `Logging` middleware: wrap the response writer (seeded at
status 200), run `next` against it, then emit one log line with the
request id from the context, method, path, recorded status, measured
wall-clock duration (an environment input here) and recorded bytes. -/
def Logging (next : Request → List Event) (duration : ℚ) (r : Request) :
    List Event × List LogLine :=
  let p := rwRun ⟨200, 0⟩ (next r)
  (p.2, [⟨r.ctxID, r.method, r.path, p.1.status, duration, p.1.size⟩])

/-- The claim's wording: the status of the *first* status-setting call
in the trace (200 if none). -/
def firstStatus : List Event → ℕ
  | [] => 200
  | Event.writeHeader c :: _ => c
  | _ :: t => firstStatus t

/-- The status of the *last* status-setting call in the trace (200 if
none) — what the code actually records. -/
def lastStatus (t : List Event) : ℕ :=
  t.foldl
    (fun s e =>
      match e with
      | Event.writeHeader c => c
      | _ => s) 200

/-- Total bytes written in a trace. -/
def totalBytes (t : List Event) : ℕ :=
  t.foldl
    (fun s e =>
      match e with
      | Event.write b => s + b.length
      | _ => s) 0

theorem rwRun_spec (t : List Event) :
    ∀ s0 n0 : ℕ,
      rwRun ⟨s0, n0⟩ t =
        (⟨t.foldl
            (fun s e =>
              match e with
              | Event.writeHeader c => c
              | _ => s) s0,
          n0 + t.foldl
            (fun s e =>
              match e with
              | Event.write b => s + b.length
              | _ => s) 0⟩, t) := by
  induction t with
  | nil => intro s0 n0; simp [rwRun]
  | cons e t ih =>
      intro s0 n0
      cases e with
      | setHeader name value =>
          simp only [rwRun, rwProcess, ih, List.foldl_cons]
      | writeHeader c =>
          simp only [rwRun, rwProcess, rwWriteHeader, ih, List.foldl_cons]
      | write b =>
          simp only [rwRun, rwProcess, rwWrite, ih, List.foldl_cons]
          refine Prod.ext ?_ rfl
          simp only
          congr 1
          have hshift : ∀ (l : List Event) (x y : ℕ),
              l.foldl
                (fun s e =>
                  match e with
                  | Event.write b2 => s + b2.length
                  | _ => s) (x + y) =
              x + l.foldl
                (fun s e =>
                  match e with
                  | Event.write b2 => s + b2.length
                  | _ => s) y := by
            intro l
            induction l with
            | nil => intro x y; rfl
            | cons e2 l2 ih2 =>
                intro x y
                cases e2 with
                | setHeader n2 v2 => simpa using ih2 x y
                | writeHeader c2 => simpa using ih2 x y
                | write b2 =>
                    simp only [List.foldl_cons]
                    rw [Nat.add_assoc]
                    exact ih2 x (y + b2.length)
          rw [show (0 : ℕ) + b.length = b.length + 0 from by omega]
          rw [hshift t b.length 0]
          omega

/-- **C4 counterexample.** The claim says the recorded status is the
*first* status-setting call; in the code `rw.status = code` overwrites
on every call, so after `WriteHeader(200); WriteHeader(500)` (e.g. a
handler that wrote its status and then panicked, followed by the fault
barrier's 500) the recorded status is 500 while the first call — the
status the client actually received — was 200. -/
theorem C4_counterexample :
    ¬ ((rwRun ⟨200, 0⟩ [Event.writeHeader 200, Event.writeHeader 500]).1.status
        = firstStatus [Event.writeHeader 200, Event.writeHeader 500]) := by
  decide

/-- **C4 (amended).** The logging stage emits exactly one log line with
the correlation id, method, path, status, duration and byte count,
where the recorded status is the *most recent* (last) status-setting
call on the wrapped writer (200 if none — equal to the first whenever
at most one status is set), the byte count is the cumulative bytes
written, and every call is forwarded unchanged to the underlying
writer. -/
theorem C4_logging_amended (next : Request → List Event) (duration : ℚ)
    (r : Request) :
    (Logging next duration r).2 =
      [⟨r.ctxID, r.method, r.path, lastStatus (next r), duration,
        totalBytes (next r)⟩] ∧
    (Logging next duration r).1 = next r := by
  have h := rwRun_spec (next r) 200 0
  constructor
  · simp only [Logging, h, lastStatus, totalBytes]
    simp
  · simp only [Logging, h]

end Shrink
